import Mathlib

/-!
Verification development for the EDH-Deck-Data-Compiler acquisition-and-
normalization pipeline.  The Python source is shallowly embedded: pure
data transformations become Lean functions over `List Char` / `String`,
the stateful name cache becomes explicit state passing over an
association list (a cons at the front shadows older entries, matching
Python dict assignment as observed through lookups), and effectful loops
(HTTP calls, sleeps) are modelled by functions parameterised over the
outcomes of their external calls, returning explicit event traces.
-/

namespace Scryfall

/-- The ASCII apostrophe character, used pervasively by the normalizer. -/
def apos : Char := '\''

/-- Models Python `str.lower` restricted to the characters occurring in
this development: ASCII letters plus the accented characters appearing in
the reference data (`Û`, `É`, `Æ`).  All other characters are fixed. -/
def pyLowerChar (c : Char) : Char :=
  if 'A' ≤ c ∧ c ≤ 'Z' then Char.ofNat (c.toNat + 32)
  else if c = 'Û' then 'û'
  else if c = 'É' then 'é'
  else if c = 'Æ' then 'æ'
  else c

/-- Python `s.replace(old, new)` for a one-character pattern `old`:
every occurrence of `old` is replaced by `new`. -/
def pyReplace1 (old : Char) (new : List Char) (l : List Char) : List Char :=
  l.flatMap (fun c => if c = old then new else [c])

/-- Python `s.split()` (no argument): split on runs of whitespace,
discarding empty fields. -/
def pySplitWs (l : List Char) : List (List Char) :=
  (l.splitOnP (fun c => c.isWhitespace)).filter (fun w => w ≠ [])

/-- Source: `' '.join(normalized.split())` — collapse whitespace runs to
single spaces and strip the ends. -/
def collapseWs (l : List Char) : List Char :=
  List.intercalate [' '] (pySplitWs l)

/-- Python `s.replace('', ins)` with the EMPTY pattern: the replacement
is inserted at every character boundary, including both ends
(`'ab'.replace('', "'") == "'a'b'"`).  The source performs exactly this
call on line 134 of `src/normalization/scryfall.py`
(`normalized = normalized.replace('', "'")`). -/
def insertEverywhere (ins : List Char) (l : List Char) : List Char :=
  ins ++ l.flatMap (fun c => c :: ins)

/-- Source: `re.sub(r'["""]', '"', normalized)`.  The character class in
the source consists of the ASCII double quote written three times, so the
substitution maps `"` to `"`. -/
def quoteClassSub (l : List Char) : List Char :=
  l.map (fun c => if c = '"' then '"' else c)

/-- Source: `ScryfallNormalizer._normalize_name` (leading underscore
dropped for Lean).  Lower-case, collapse whitespace, substitute `æ` and
`é`, perform the `replace('', "'")` call, then the quote-class
substitution.  The empty string is returned unchanged
(`if not name: return ""`). -/
def normalize_name (name : String) : String :=
  if name = "" then ""
  else
    let n := name.data.map pyLowerChar
    let n := collapseWs n
    let n := pyReplace1 'æ' ['a', 'e'] n
    let n := pyReplace1 'é' ['e'] n
    let n := insertEverywhere [apos] n
    let n := quoteClassSub n
    ⟨n⟩

/-- The in-memory `oracle_cache` dict: name key to oracle id.  New
entries are consed at the front, so `List.lookup` sees the most recent
binding for a key — the observable behaviour of Python dict updates. -/
abbrev Cache := List (String × String)

/-- Source: the `basic_lands` dict inside `resolve_card_name`. -/
def basic_lands : Cache :=
  [("plains", "bc71ebf6-2056-41f7-be35-b2e5c34afa99"),
   ("island", "8cff7b58-bd58-4911-a6a3-bdd1dbf71a72"),
   ("swamp", "a3fb7228-e76b-4e96-a40e-20b5fed75685"),
   ("mountain", "8cf3dce3-01e4-4fe2-ac44-b13b6fe8799e"),
   ("forest", "b34bb2dc-c1af-4d77-b0b3-a0fb342a5fc6")]

/-- Source: the `for variation in variations` loop — return the value of
the first variation present in the cache. -/
def firstVariationHit (cache : Cache) : List String → Option String
  | [] => none
  | v :: vs =>
    match cache.lookup v with
    | some oid => some oid
    | none => firstVariationHit cache vs

/-- Source: the `variations` list inside `resolve_card_name`: remove
double quotes; remove apostrophes; replace apostrophe by apostrophe (the
two glyphs in the source are both the ASCII apostrophe); remove commas. -/
def variations (normalized : String) : List String :=
  [⟨pyReplace1 '"' [] normalized.data⟩,
   ⟨pyReplace1 apos [] normalized.data⟩,
   ⟨pyReplace1 apos [apos] normalized.data⟩,
   ⟨pyReplace1 ',' [] normalized.data⟩]

/-- Source: the body of `ScryfallNormalizer.resolve_card_name` after the
initial cache/build check: direct lookup, then the variation loop (whose
hit memoizes the original normalized key), then the basic-land table
(whose hit is likewise stored).  Returns the result together with the
updated cache state. -/
def resolve_card_name_body (cache : Cache) (name : String) :
    Option String × Cache :=
  let normalized := normalize_name name
  match cache.lookup normalized with
  | some oid => (some oid, cache)
  | none =>
    match firstVariationHit cache (variations normalized) with
    | some oid => (some oid, (normalized, oid) :: cache)
    | none =>
      match basic_lands.lookup normalized with
      | some oid => (some oid, (normalized, oid) :: cache)
      | none => (none, cache)

/-- Source: `ScryfallNormalizer.resolve_card_name` including the initial
`if not self.oracle_cache: if not self.build_name_resolver(): return
None` check.  The outcome of `build_name_resolver` (an effectful
download-and-parse) is a parameter: `none` models a failed build, `some
built` a build that leaves `oracle_cache = built`. -/
def resolve_card_name (build : Option Cache) (cache : Cache)
    (name : String) : Option String × Cache :=
  if cache.isEmpty then
    match build with
    | none => (none, cache)
    | some built => resolve_card_name_body built name
  else resolve_card_name_body cache name

/-- One row of the Scryfall bulk reference data, restricted to the
fields read by `build_name_resolver`: `name`, `oracle_id`, the face
names of a double-faced card, and an optional `printed_name`. -/
structure RefCard where
  name : String
  oracle_id : String
  face_names : List String := []
  printed_name : Option String := none

/-- Python dict assignment `oracle_cache[key] = oid`, observed through
`List.lookup`: cons at the front shadows any older binding. -/
def insertName (cache : Cache) (key oid : String) : Cache :=
  (key, oid) :: cache

/-- Python `s.split('//')`: split on non-overlapping occurrences of the
two-character separator `//`, left to right. -/
def splitSlashSlash (cur : List Char) : List Char → List (List Char)
  | [] => [cur.reverse]
  | [c] => [(c :: cur).reverse]
  | c :: c2 :: rs2 =>
    if c = '/' ∧ c2 = '/' then cur.reverse :: splitSlashSlash [] rs2
    else splitSlashSlash (c :: cur) (c2 :: rs2)

/-- Python `s.strip()`: drop leading and trailing whitespace. -/
def pyStrip (l : List Char) : List Char :=
  ((l.dropWhile Char.isWhitespace).reverse.dropWhile Char.isWhitespace).reverse

/-- Source: `[p.strip() for p in name.split('//')]`. -/
def splitParts (name : String) : List String :=
  (splitSlashSlash [] name.data).map (fun p => ⟨pyStrip p⟩)

/-- Source: the body of the `for card in cards` loop of
`build_name_resolver`: insert the normalized main name, every face name,
both halves of a `//` split name (when `//` occurs in the name), and the
printed name when present. -/
def insertRefCard (cache : Cache) (card : RefCard) : Cache :=
  let c := insertName cache (normalize_name card.name) card.oracle_id
  let c := card.face_names.foldl
    (fun acc f => insertName acc (normalize_name f) card.oracle_id) c
  let c :=
    if (splitSlashSlash [] card.name.data).length > 1 then
      (splitParts card.name).foldl
        (fun acc p => insertName acc (normalize_name p) card.oracle_id) c
    else c
  match card.printed_name with
  | some p => insertName c (normalize_name p) card.oracle_id
  | none => c

/-- Source: `ScryfallNormalizer.build_name_resolver` applied to an
already-parsed list of reference cards (the file download and JSON parse
are external IO). -/
def build_name_resolver (cards : List RefCard) : Cache :=
  cards.foldl insertRefCard []

end Scryfall

/-- The reference index built from exactly one reference entry for the
card Lim-Dûl's Hex (canonical id abbreviated to `limdul-oid`). -/
def limDulCache : Scryfall.Cache :=
  Scryfall.build_name_resolver [{ name := "Lim-Dûl's Hex", oracle_id := "limdul-oid" }]

theorem lookup_ne_nil {α β : Type} [BEq α] {l : List (α × β)} {k : α}
    {v : β} (h : l.lookup k = some v) : l.isEmpty = false := by
  cases l with
  | nil => simp [List.lookup] at h
  | cons a t => simp [List.isEmpty]

theorem resolve_body_success {cache cache2 : Scryfall.Cache}
    {name oid : String}
    (h : Scryfall.resolve_card_name_body cache name = (some oid, cache2)) :
    cache2.lookup (Scryfall.normalize_name name) = some oid ∧
      Scryfall.resolve_card_name_body cache2 name = (some oid, cache2) := by
  unfold Scryfall.resolve_card_name_body at h ⊢
  rcases h1 : cache.lookup (Scryfall.normalize_name name) with _ | o
  · rcases h2 : Scryfall.firstVariationHit cache
        (Scryfall.variations (Scryfall.normalize_name name)) with _ | o
    · rcases h3 : Scryfall.basic_lands.lookup (Scryfall.normalize_name name)
          with _ | o
      · simp [h1, h2, h3] at h
      · simp [h1, h2, h3] at h
        obtain ⟨rfl, rfl⟩ := h
        simp [List.lookup]
    · simp [h1, h2] at h
      obtain ⟨rfl, rfl⟩ := h
      simp [List.lookup]
  · simp [h1] at h
    obtain ⟨rfl, rfl⟩ := h
    simp [h1]

/-- C7: after a first successful resolution of a name — direct, via a
variation, or via the basic-land table — the updated cache maps the
normalized key directly to the returned id, and a second resolution of
the same name returns the same id (and the same cache), never `none`. -/
theorem C7_resolution_idempotent (build : Option Scryfall.Cache)
    (cache : Scryfall.Cache) (name oid : String) (cache2 : Scryfall.Cache)
    (h : Scryfall.resolve_card_name build cache name = (some oid, cache2)) :
    cache2.lookup (Scryfall.normalize_name name) = some oid ∧
      Scryfall.resolve_card_name build cache2 name = (some oid, cache2) := by
  unfold Scryfall.resolve_card_name at h
  have key : Scryfall.resolve_card_name_body cache2 name = (some oid, cache2) ∧
      cache2.lookup (Scryfall.normalize_name name) = some oid := by
    by_cases he : cache.isEmpty
    · rcases build with _ | built
      · simp [he] at h
      · simp [he] at h
        exact ⟨(resolve_body_success h).2, (resolve_body_success h).1⟩
    · simp [he] at h
      exact ⟨(resolve_body_success h).2, (resolve_body_success h).1⟩
  refine ⟨key.2, ?_⟩
  unfold Scryfall.resolve_card_name
  rw [lookup_ne_nil key.2]
  simpa using key.1

/-- Witness for C7 at a concrete input: resolving Lim-Dûl's Hex against
the one-entry index succeeds, and by C7 the repeated resolution returns
the same id with the cache unchanged. -/
theorem C7_witness :
    Scryfall.resolve_card_name none limDulCache "Lim-Dûl's Hex" =
        (some "limdul-oid", limDulCache) ∧
      (limDulCache.lookup (Scryfall.normalize_name "Lim-Dûl's Hex") =
          some "limdul-oid" ∧
        Scryfall.resolve_card_name none limDulCache "Lim-Dûl's Hex" =
          (some "limdul-oid", limDulCache)) :=
  have h : Scryfall.resolve_card_name none limDulCache "Lim-Dûl's Hex" =
      (some "limdul-oid", limDulCache) := by decide
  ⟨h, C7_resolution_idempotent none limDulCache "Lim-Dûl's Hex" "limdul-oid"
      limDulCache h⟩

/-- C3 fails on the code: with the one-entry index for Lim-Dûl's Hex,
the exact spelling resolves, but the diacritic-free spellings
`lim-dul's hex` and `Lim-Dul's Hex` resolve to `none` — the three names
do not all resolve to the same canonical id. -/
theorem C3_counterexample :
    (Scryfall.resolve_card_name none limDulCache "Lim-Dûl's Hex").1 =
        some "limdul-oid" ∧
      (Scryfall.resolve_card_name none limDulCache "lim-dul's hex").1 = none ∧
      (Scryfall.resolve_card_name none limDulCache "Lim-Dul's Hex").1 = none := by
  refine ⟨?_, ?_, ?_⟩ <;> decide

/-- C3 amended: given one reference entry for the card, the input names
equal to `Lim-Dûl's Hex` up to case folding and whitespace collapsing
resolve to its canonical id, but the spellings with the diacritic
dropped (`lim-dul's hex`, `Lim-Dul's Hex`) resolve to `none`: the
normalizer canonicalizes only the characters `æ` and `é`, not `û`, and
no fallback variation reintroduces the diacritic. -/
theorem C3_amended :
    (Scryfall.resolve_card_name none limDulCache "Lim-Dûl's Hex").1 =
        some "limdul-oid" ∧
      (Scryfall.resolve_card_name none limDulCache "  lim-dûl's   HEX ").1 =
        some "limdul-oid" ∧
      (Scryfall.resolve_card_name none limDulCache "lim-dul's hex").1 = none ∧
      (Scryfall.resolve_card_name none limDulCache "Lim-Dul's Hex").1 = none := by
  refine ⟨?_, ?_, ?_, ?_⟩ <;> decide

/-- C4 fails on the code (code bug): the built-in basic-land table is
unreachable.  `normalize_name "Forest"` is `'f'o'r'e's't'` — the
`replace('', "'")` call on line 134 of `scryfall.py` inserts an
apostrophe at every character boundary — so the normalized key can never
equal the table key `forest`, and resolution returns `none`; with an
unbuilt index and a failing build, resolution returns `none` before the
table is even consulted.  The table itself does map `forest` to the
canonical id the claim expects. -/
theorem C4_basic_land_unreachable :
    (Scryfall.resolve_card_name none
        [("unrelated-key", "unrelated-oid")] "Forest").1 = none ∧
      (Scryfall.resolve_card_name none [] "Forest").1 = none ∧
      Scryfall.normalize_name "Forest" = "'f'o'r'e's't'" ∧
      Scryfall.basic_lands.lookup "forest" =
        some "b34bb2dc-c1af-4d77-b0b3-a0fb342a5fc6" := by
  refine ⟨?_, ?_, ?_, ?_⟩ <;> decide

namespace Archidekt

/-- An observable event of the paginated discovery loop: an HTTP page
fetch (one call of `discover_deck_ids_by_commander`) or a politeness
sleep of `d` seconds. -/
inductive DiscEv where
  | fetchPage (page : Nat)
  | sleepDelay (d : ℚ)
deriving DecidableEq

/-- Source: the `while page <= max_pages` loop of
`ArchidektAdapter.discover_top_viewed_deck_ids_by_commander`.  The page
fetch is abstracted as `fetch : Nat → List String` (the ids returned by
`discover_deck_ids_by_commander` for that page; that function returns
`[]` both on an empty result page and on a request error), and
`random.uniform` as `uniform : ℚ → ℚ → ℚ`.  The loop runs at most
`maxPages - page + 1` more iterations, so the recursion is structural on
that `remaining` count; `remaining = 0` is the `page > max_pages` exit.
Returns the accumulated ids and the fetch/sleep event trace from `page`
onward. -/
def discoverGo (fetch : Nat → List String) (uniform : ℚ → ℚ → ℚ) (p : ℚ)
    (maxPages : Nat) : (remaining : Nat) → (page : Nat) →
    List String × List DiscEv
  | 0, _ => ([], [])
  | remaining + 1, page =>
    let ids := fetch page
    if ids = [] then ([], [DiscEv.fetchPage page])
    else if page ≥ maxPages then (ids, [DiscEv.fetchPage page])
    else
      let d := uniform (p / 2) p
      let r := discoverGo fetch uniform p maxPages remaining (page + 1)
      (ids ++ r.1, DiscEv.fetchPage page :: DiscEv.sleepDelay d :: r.2)

/-- Source: `ArchidektAdapter.discover_top_viewed_deck_ids_by_commander`:
run the loop from page 1, then `list(set(all_deck_ids))`.  The Python
set has no specified order, and `List.dedup` realizes one
representative order; all claims about the result are set-level. -/
def discover_top_viewed_deck_ids_by_commander (fetch : Nat → List String)
    (uniform : ℚ → ℚ → ℚ) (p : ℚ) (maxPages : Nat) :
    List String × List DiscEv :=
  let r := discoverGo fetch uniform p maxPages maxPages 1
  (r.1.dedup, r.2)

/-- Number of page fetches the loop performs from `page` on, given
`remaining` allowed iterations (specification-side companion of
`discoverGo`). -/
def numFetched (fetch : Nat → List String) (maxPages : Nat) :
    Nat → Nat → Nat
  | 0, _ => 0
  | remaining + 1, page =>
    if fetch page = [] then 1
    else if page ≥ maxPages then 1
    else numFetched fetch maxPages remaining (page + 1) + 1

/-- The expected event trace for `n` fetched pages starting at `start`:
one fetch per page, with exactly one sleep of `d` between consecutive
fetches and none after the last. -/
def altTrace (d : ℚ) : (start : Nat) → (n : Nat) → List DiscEv
  | _, 0 => []
  | start, n + 1 =>
    DiscEv.fetchPage start ::
      (if n = 0 then []
       else DiscEv.sleepDelay d :: altTrace d (start + 1) n)

/-- The pages fetched according to an event trace, in order. -/
def fetchedPages (evs : List DiscEv) : List Nat :=
  evs.filterMap fun e =>
    match e with
    | DiscEv.fetchPage n => some n
    | DiscEv.sleepDelay _ => none

theorem numFetched_pos (fetch : Nat → List String) (m r page : Nat) :
    1 ≤ numFetched fetch m (r + 1) page := by
  unfold numFetched
  split <;> [omega; skip]
  split <;> omega

theorem discoverGo_trace (fetch : Nat → List String)
    (uniform : ℚ → ℚ → ℚ) (p : ℚ) (m : Nat) :
    ∀ r page, page + r = m + 1 →
      (discoverGo fetch uniform p m r page).2 =
        altTrace (uniform (p / 2) p) page (numFetched fetch m r page) := by
  intro r
  induction r with
  | zero => intro page h; simp [discoverGo, numFetched, altTrace]
  | succ r ih =>
    intro page h
    by_cases h1 : fetch page = []
    · simp [discoverGo, numFetched, h1, altTrace]
    · by_cases h2 : page ≥ m
      · simp [discoverGo, numFetched, h1, h2, altTrace]
      · have ih2 := ih (page + 1) (by omega)
        have hpos : 1 ≤ numFetched fetch m r (page + 1) := by
          obtain ⟨r2, hr2⟩ : ∃ r2, r = r2 + 1 := ⟨r - 1, by omega⟩
          rw [hr2]
          exact numFetched_pos fetch m r2 (page + 1)
        simp only [discoverGo, if_neg h1, if_neg h2]
        rw [show numFetched fetch m (r + 1) page =
            numFetched fetch m r (page + 1) + 1 from by
          simp [numFetched, h1, h2]]
        simp only [altTrace]
        rw [if_neg (by omega : ¬ numFetched fetch m r (page + 1) = 0)]
        simp [ih2]

theorem discoverGo_fst (fetch : Nat → List String)
    (uniform : ℚ → ℚ → ℚ) (p : ℚ) (m : Nat) :
    ∀ r page, (discoverGo fetch uniform p m r page).1 =
      ((List.range' page (numFetched fetch m r page)).map fetch).flatten := by
  intro r
  induction r with
  | zero => intro page; simp [discoverGo, numFetched]
  | succ r ih =>
    intro page
    by_cases h1 : fetch page = []
    · simp [discoverGo, numFetched, h1, List.range'_succ]
    · by_cases h2 : page ≥ m
      · simp [discoverGo, numFetched, h1, h2, List.range'_succ]
      · simp only [discoverGo, if_neg h1, if_neg h2]
        rw [show numFetched fetch m (r + 1) page =
            numFetched fetch m r (page + 1) + 1 by
          simp [numFetched, h1, h2]]
        rw [List.range'_succ]
        simp [ih (page + 1)]

theorem fetchedPages_altTrace (d : ℚ) :
    ∀ n s, fetchedPages (altTrace d s n) = List.range' s n
  | 0, s => by simp [altTrace, fetchedPages]
  | n + 1, s => by
    have ih := fetchedPages_altTrace d n (s + 1)
    rw [List.range'_succ]
    by_cases hn : n = 0
    · subst hn
      simp [altTrace, fetchedPages, List.range']
    · simp only [altTrace, if_neg hn]
      simp only [fetchedPages, List.filterMap_cons] at ih ⊢
      simpa using ih

theorem sleep_mem_altTrace (d d2 : ℚ) :
    ∀ n s, DiscEv.sleepDelay d2 ∈ altTrace d s n → d2 = d
  | 0, s => by simp [altTrace]
  | n + 1, s => by
    intro hmem
    simp only [altTrace, List.mem_cons] at hmem
    rcases hmem with h | h
    · cases h
    · by_cases hn : n = 0
      · rw [if_pos hn] at h
        cases h
      · rw [if_neg hn] at h
        rcases List.mem_cons.mp h with h2 | h2
        · cases h2; rfl
        · exact sleep_mem_altTrace d d2 n (s + 1) h2

end Archidekt

namespace Archidekt

/-- The sequence of result pages the search would serve: page `i` of the
commander search for `1 ≤ i ≤ m`. -/
def pagesOf (fetch : Nat → List String) (m : Nat) : List (List String) :=
  (List.range' 1 m).map fetch

theorem numFetched_all_nonempty (fetch : Nat → List String) (m : Nat) :
    ∀ r page, page + r = m + 1 →
      (∀ i, page ≤ i → i ≤ m → fetch i ≠ []) →
      numFetched fetch m r page = r := by
  intro r
  induction r with
  | zero => intro page h hne; simp [numFetched]
  | succ r ih =>
    intro page h hne
    have h1 : fetch page ≠ [] := hne page (Nat.le_refl page) (by omega)
    by_cases h2 : page ≥ m
    · have : r = 0 := by omega
      subst this
      simp [numFetched, h1, h2]
    · simp only [numFetched, if_neg h1, if_neg h2]
      rw [ih (page + 1) (by omega) (fun i hi him => hne i (by omega) him)]

theorem numFetched_empty_at (fetch : Nat → List String) (m k : Nat)
    (hkm : k ≤ m) (hempty : fetch k = []) :
    ∀ r page, page + r = m + 1 → page ≤ k →
      (∀ i, page ≤ i → i < k → fetch i ≠ []) →
      numFetched fetch m r page = k + 1 - page := by
  intro r
  induction r with
  | zero => intro page h hpk hne; omega
  | succ r ih =>
    intro page h hpk hne
    by_cases hp : page = k
    · subst hp
      simp only [numFetched, if_pos hempty]
      omega
    · have h1 : fetch page ≠ [] := hne page (Nat.le_refl page) (by omega)
      have h2 : ¬ page ≥ m := by omega
      simp only [numFetched, if_neg h1, if_neg h2]
      rw [ih (page + 1) (by omega) (by omega)
        (fun i hi hik => hne i (by omega) hik)]
      omega

theorem dedup_toFinset {α : Type} [DecidableEq α] (l : List α) :
    l.dedup.toFinset = l.toFinset := by
  ext a
  simp [List.mem_dedup]

end Archidekt

/-- C5: for every commander search, paginated discovery halts
immediately on the first page yielding zero identifiers, even when
`max_pages` is not reached — the pages actually fetched are exactly
`1..k` where `k` is the first empty page, and the accumulated earlier
identifiers are still returned (end-of-results, not an error);
otherwise, fetching continues through page `max_pages`. -/
theorem C5_pagination_stop (fetch : Nat → List String)
    (uniform : ℚ → ℚ → ℚ) (p : ℚ) (m : Nat) :
    (∀ k, 1 ≤ k → k ≤ m → fetch k = [] →
      (∀ i, 1 ≤ i → i < k → fetch i ≠ []) →
      Archidekt.fetchedPages
          (Archidekt.discover_top_viewed_deck_ids_by_commander
            fetch uniform p m).2 = List.range' 1 k ∧
        (Archidekt.discover_top_viewed_deck_ids_by_commander
            fetch uniform p m).1 =
          (((List.range' 1 k).map fetch).flatten).dedup) ∧
    ((∀ i, 1 ≤ i → i ≤ m → fetch i ≠ []) →
      Archidekt.fetchedPages
        (Archidekt.discover_top_viewed_deck_ids_by_commander
          fetch uniform p m).2 = List.range' 1 m) := by
  have htr := Archidekt.discoverGo_trace fetch uniform p m m 1 (by omega)
  have hfst := Archidekt.discoverGo_fst fetch uniform p m m 1
  constructor
  · intro k hk1 hkm hke hne
    have hnum : Archidekt.numFetched fetch m m 1 = k :=  by
      have := Archidekt.numFetched_empty_at fetch m k hkm hke m 1 (by omega)
        (by omega) (fun i hi hik => hne i hi hik)
      omega
    constructor
    · unfold Archidekt.discover_top_viewed_deck_ids_by_commander
      simp only
      rw [htr, hnum, Archidekt.fetchedPages_altTrace]
    · unfold Archidekt.discover_top_viewed_deck_ids_by_commander
      simp only
      rw [hfst, hnum]
  · intro hne
    have hnum : Archidekt.numFetched fetch m m 1 = m :=
      Archidekt.numFetched_all_nonempty fetch m m 1 (by omega)
        (fun i hi him => hne i hi him)
    unfold Archidekt.discover_top_viewed_deck_ids_by_commander
    simp only
    rw [htr, hnum, Archidekt.fetchedPages_altTrace]

/-- A concrete page server: page 1 holds one deck id, every later page
is empty. -/
def onePageFetch : Nat → List String :=
  fun i => if i = 1 then ["7"] else []

/-- Witness for C5 at a concrete input: with pages `["7"], [], …` and
`max_pages = 3`, the loop fetches exactly pages 1 and 2. -/
theorem C5_witness :
    Archidekt.fetchedPages
        (Archidekt.discover_top_viewed_deck_ids_by_commander
          onePageFetch (fun a _ => a) 4 3).2 = List.range' 1 2 ∧
      (Archidekt.discover_top_viewed_deck_ids_by_commander
          onePageFetch (fun a _ => a) 4 3).1 =
        (((List.range' 1 2).map onePageFetch).flatten).dedup :=
  (C5_pagination_stop onePageFetch (fun a _ => a) 4 3).1 2 (by decide)
    (by decide) (by decide)
    (fun i h1 h2 => by
      have : i = 1 := by omega
      subst this
      decide)

/-- C6: over any run of nonempty pages, the discovery result has no
duplicates, its length is the number of distinct identifiers across all
pages (duplicates inside one page do not inflate it), its underlying set
is the union of the pages, and any run over a permutation of the same
pages yields the same set. -/
theorem C6_discovery_dedup (fetch g : Nat → List String)
    (u u2 : ℚ → ℚ → ℚ) (p p2 : ℚ) (m m2 : Nat)
    (h1 : ∀ i, 1 ≤ i → i ≤ m → fetch i ≠ [])
    (h2 : ∀ i, 1 ≤ i → i ≤ m2 → g i ≠ [])
    (hperm : List.Perm (Archidekt.pagesOf fetch m) (Archidekt.pagesOf g m2)) :
    (Archidekt.discover_top_viewed_deck_ids_by_commander
        fetch u p m).1.Nodup ∧
      (Archidekt.discover_top_viewed_deck_ids_by_commander
          fetch u p m).1.length =
        ((Archidekt.pagesOf fetch m).flatten).dedup.length ∧
      (Archidekt.discover_top_viewed_deck_ids_by_commander
          fetch u p m).1.toFinset =
        ((Archidekt.pagesOf fetch m).flatten).toFinset ∧
      (Archidekt.discover_top_viewed_deck_ids_by_commander
          g u2 p2 m2).1.toFinset =
        (Archidekt.discover_top_viewed_deck_ids_by_commander
          fetch u p m).1.toFinset := by
  have key : ∀ (f : Nat → List String) (uu : ℚ → ℚ → ℚ) (pp : ℚ) (mm : Nat),
      (∀ i, 1 ≤ i → i ≤ mm → f i ≠ []) →
      (Archidekt.discover_top_viewed_deck_ids_by_commander
          f uu pp mm).1 = ((Archidekt.pagesOf f mm).flatten).dedup := by
    intro f uu pp mm hne
    unfold Archidekt.discover_top_viewed_deck_ids_by_commander
    simp only
    rw [Archidekt.discoverGo_fst,
      Archidekt.numFetched_all_nonempty f mm mm 1 (by omega)
        (fun i hi him => hne i hi him)]
    rfl
  have e1 := key fetch u p m h1
  have e2 := key g u2 p2 m2 h2
  refine ⟨?_, ?_, ?_, ?_⟩
  · rw [e1]; exact List.nodup_dedup _
  · rw [e1]
  · rw [e1]; exact Archidekt.dedup_toFinset _
  · rw [e1, e2, Archidekt.dedup_toFinset, Archidekt.dedup_toFinset]
    exact (List.toFinset_eq_of_perm _ _ hperm.flatten).symm

/-- Two pages with overlapping identifiers, in one order… -/
def pagesA : Nat → List String :=
  fun i => if i = 1 then ["1", "2", "2"] else if i = 2 then ["2", "3"] else []

/-- …and the same two pages in the other order. -/
def pagesB : Nat → List String :=
  fun i => if i = 1 then ["2", "3"] else if i = 2 then ["1", "2", "2"] else []

/-- Witness for C6 at a concrete input: pages `["1","2","2"]` and
`["2","3"]` in either order give a duplicate-free result of the 3
distinct identifiers, with equal underlying sets. -/
theorem C6_witness :
    (Archidekt.discover_top_viewed_deck_ids_by_commander
        pagesA (fun a _ => a) 4 2).1.Nodup ∧
      (Archidekt.discover_top_viewed_deck_ids_by_commander
          pagesA (fun a _ => a) 4 2).1.length =
        ((Archidekt.pagesOf pagesA 2).flatten).dedup.length ∧
      (Archidekt.discover_top_viewed_deck_ids_by_commander
          pagesA (fun a _ => a) 4 2).1.toFinset =
        ((Archidekt.pagesOf pagesA 2).flatten).toFinset ∧
      (Archidekt.discover_top_viewed_deck_ids_by_commander
          pagesB (fun a _ => a) 4 2).1.toFinset =
        (Archidekt.discover_top_viewed_deck_ids_by_commander
          pagesA (fun a _ => a) 4 2).1.toFinset :=
  C6_discovery_dedup pagesA pagesB (fun a _ => a) (fun a _ => a) 4 4 2 2
    (fun i hi him => by interval_cases i <;> decide)
    (fun i hi him => by interval_cases i <;> decide)
    (by decide)

/-- C9: the discovery loop's event trace is exactly `fetch 1, sleep,
fetch 2, sleep, …, fetch n` — one politeness sleep between each pair of
successive page fetches and none after the last fetch, however the loop
terminates — and, provided the sampler returns a value in its requested
interval (the contract of `random.uniform`), every sleep duration lies
in `[politeness_seconds / 2, politeness_seconds]`. -/
theorem C9_politeness_delay (fetch : Nat → List String)
    (uniform : ℚ → ℚ → ℚ) (p : ℚ) (m : Nat)
    (hu : p / 2 ≤ uniform (p / 2) p ∧ uniform (p / 2) p ≤ p) :
    (Archidekt.discover_top_viewed_deck_ids_by_commander
        fetch uniform p m).2 =
      Archidekt.altTrace (uniform (p / 2) p) 1
        (Archidekt.numFetched fetch m m 1) ∧
    ∀ d, Archidekt.DiscEv.sleepDelay d ∈
        (Archidekt.discover_top_viewed_deck_ids_by_commander
          fetch uniform p m).2 →
      p / 2 ≤ d ∧ d ≤ p := by
  have htr : (Archidekt.discover_top_viewed_deck_ids_by_commander
      fetch uniform p m).2 =
      Archidekt.altTrace (uniform (p / 2) p) 1
        (Archidekt.numFetched fetch m m 1) := by
    unfold Archidekt.discover_top_viewed_deck_ids_by_commander
    simp only
    exact Archidekt.discoverGo_trace fetch uniform p m m 1 (by omega)
  refine ⟨htr, ?_⟩
  intro d hd
  rw [htr] at hd
  have := Archidekt.sleep_mem_altTrace (uniform (p / 2) p) d
    (Archidekt.numFetched fetch m m 1) 1 hd
  rw [this]
  exact hu

/-- Witness for C9 at a concrete input: with the sampler that returns
the lower endpoint, `politeness_seconds = 4` and pages `["7"], []`, the
trace is characterized by the theorem. -/
theorem C9_witness :
    ((4 : ℚ) / 2 ≤ (fun (a : ℚ) (_ : ℚ) => a) ((4 : ℚ) / 2) 4 ∧
      (fun (a : ℚ) (_ : ℚ) => a) ((4 : ℚ) / 2) 4 ≤ 4) ∧
    (Archidekt.discover_top_viewed_deck_ids_by_commander
        onePageFetch (fun a _ => a) 4 3).2 =
      Archidekt.altTrace ((fun (a : ℚ) (_ : ℚ) => a) ((4 : ℚ) / 2) 4) 1
        (Archidekt.numFetched onePageFetch 3 3 1) :=
  have hu : (4 : ℚ) / 2 ≤ (fun (a : ℚ) (_ : ℚ) => a) ((4 : ℚ) / 2) 4 ∧
      (fun (a : ℚ) (_ : ℚ) => a) ((4 : ℚ) / 2) 4 ≤ 4 := by
    constructor <;> norm_num
  ⟨hu, (C9_politeness_delay onePageFetch (fun a _ => a) 4 3 hu).1⟩

namespace BaseAdapter

/-- Outcome of one `session.get` call inside `_make_request`: a 2xx
response (`raise_for_status` passes and the response is returned), an
HTTP 429 carrying the parsed `Retry-After` seconds (default 60), or a
`requests.RequestException` — covering both the `HTTPError` raised by
`raise_for_status` on other 4xx/5xx statuses and connection-level
errors, which the source handles identically in its `except` clause. -/
inductive HttpOutcome where
  | success
  | status429 (retryAfter : Nat)
  | failure
deriving DecidableEq

/-- Observable events of `_make_request`: one HTTP call per loop
iteration, the `time.sleep(retry_after)` after a 429, and the
exponential-backoff `time.sleep` before a retry of a failed attempt. -/
inductive MREv where
  | get (attempt : Nat)
  | sleepRetryAfter (d : Nat)
  | sleepBackoff (attempt : Nat)
deriving DecidableEq

/-- How `_make_request` ends: returning a response, re-raising the last
`RequestException`, or falling off the end of the `for` loop — in which
case the Python function implicitly returns `None`. -/
inductive MRResult where
  | ok (attempt : Nat)
  | raised (attempt : Nat)
  | noneReturned
deriving DecidableEq

/-- Source: the `for attempt in range(max_retries + 1)` loop of
`BaseAdapter._make_request`.  `resp attempt` is the outcome of the HTTP
call made in iteration `attempt` (the loop makes exactly one call per
iteration, so call index and loop index coincide).  On a 429 the code
sleeps `Retry-After` seconds and executes `continue`, which advances the
`for` loop to the next `attempt`; on a failure it sleeps the backoff and
retries while attempts remain, else re-raises.  `remaining` counts the
iterations left (`max_retries + 1 - attempt`); `remaining = 0` is the
exhausted loop, whose fall-through returns `None`. -/
def makeRequestGo (resp : Nat → HttpOutcome) (maxRetries : Nat) :
    (remaining : Nat) → (attempt : Nat) → MRResult × List MREv
  | 0, _ => (MRResult.noneReturned, [])
  | remaining + 1, attempt =>
    match resp attempt with
    | HttpOutcome.success => (MRResult.ok attempt, [MREv.get attempt])
    | HttpOutcome.status429 d =>
      let r := makeRequestGo resp maxRetries remaining (attempt + 1)
      (r.1, MREv.get attempt :: MREv.sleepRetryAfter d :: r.2)
    | HttpOutcome.failure =>
      if attempt < maxRetries then
        let r := makeRequestGo resp maxRetries remaining (attempt + 1)
        (r.1, MREv.get attempt :: MREv.sleepBackoff attempt :: r.2)
      else (MRResult.raised attempt, [MREv.get attempt])

/-- Source: `BaseAdapter._make_request` (after the initial `_rate_limit`
call, which touches only timing state). -/
def make_request (resp : Nat → HttpOutcome) (maxRetries : Nat) :
    MRResult × List MREv :=
  makeRequestGo resp maxRetries (maxRetries + 1) 0

/-- Recognizes HTTP-call events. -/
def isGet : MREv → Bool
  | MREv.get _ => true
  | MREv.sleepRetryAfter _ => false
  | MREv.sleepBackoff _ => false

theorem go_count (resp : Nat → HttpOutcome) (m : Nat) :
    ∀ r attempt, ((makeRequestGo resp m r attempt).2.countP isGet) ≤ r := by
  intro r
  induction r with
  | zero => intro attempt; simp [makeRequestGo]
  | succ r ih =>
    intro attempt
    cases hr : resp attempt with
    | success => simp [makeRequestGo, hr, isGet, List.countP_cons]
    | status429 d =>
      simp only [makeRequestGo, hr]
      have := ih (attempt + 1)
      simp [List.countP_cons, isGet]
      omega
    | failure =>
      by_cases hlt : attempt < m
      · simp only [makeRequestGo, hr, if_pos hlt]
        have := ih (attempt + 1)
        simp [List.countP_cons, isGet]
        omega
      · simp [makeRequestGo, hr, if_neg hlt, isGet, List.countP_cons]

theorem go_get_head (resp : Nat → HttpOutcome) (m : Nat)
    (r attempt : Nat) (hr : 1 ≤ r) :
    MREv.get attempt ∈ (makeRequestGo resp m r attempt).2 := by
  obtain ⟨r2, rfl⟩ : ∃ r2, r = r2 + 1 := ⟨r - 1, by omega⟩
  cases hresp : resp attempt with
  | success => simp [makeRequestGo, hresp]
  | status429 d => simp [makeRequestGo, hresp]
  | failure =>
    by_cases hlt : attempt < m
    · simp [makeRequestGo, hresp, if_pos hlt]
    · simp [makeRequestGo, hresp, if_neg hlt]

theorem go_429_retry (resp : Nat → HttpOutcome) (m : Nat) :
    ∀ r attempt, attempt + r = m + 1 →
      ∀ i d, MREv.get i ∈ (makeRequestGo resp m r attempt).2 →
        resp i = HttpOutcome.status429 d →
        MREv.sleepRetryAfter d ∈ (makeRequestGo resp m r attempt).2 ∧
          (i < m → MREv.get (i + 1) ∈ (makeRequestGo resp m r attempt).2) := by
  intro r
  induction r with
  | zero => intro attempt h i d hmem; simp [makeRequestGo] at hmem
  | succ r ih =>
    intro attempt h i d hmem hresp
    cases hr : resp attempt with
    | success =>
      simp only [makeRequestGo, hr, List.mem_singleton] at hmem
      cases hmem
      rw [hresp] at hr
      cases hr
    | status429 d0 =>
      simp only [makeRequestGo, hr, List.mem_cons] at hmem ⊢
      rcases hmem with h1 | h1 | h1
      · cases h1
        rw [hresp] at hr
        injection hr with hd
        subst hd
        refine ⟨Or.inr (Or.inl rfl), fun him => ?_⟩
        have hr1 : 1 ≤ r := by omega
        exact Or.inr (Or.inr (go_get_head resp m r (attempt + 1) hr1))
      · cases h1
      · have := ih (attempt + 1) (by omega) i d h1 hresp
        exact ⟨Or.inr (Or.inr this.1),
          fun him => Or.inr (Or.inr (this.2 him))⟩
    | failure =>
      by_cases hlt : attempt < m
      · simp only [makeRequestGo, hr, if_pos hlt, List.mem_cons] at hmem ⊢
        rcases hmem with h1 | h1 | h1
        · cases h1
          rw [hresp] at hr
          cases hr
        · cases h1
        · have := ih (attempt + 1) (by omega) i d h1 hresp
          exact ⟨Or.inr (Or.inr this.1),
            fun him => Or.inr (Or.inr (this.2 him))⟩
      · simp only [makeRequestGo, hr, if_neg hlt, List.mem_singleton] at hmem
        cases hmem
        rw [hresp] at hr
        cases hr

theorem go_all429 (resp : Nat → HttpOutcome) (m : Nat)
    (hall : ∀ i, ∃ d, resp i = HttpOutcome.status429 d) :
    ∀ r attempt, (makeRequestGo resp m r attempt).1 =
      MRResult.noneReturned := by
  intro r
  induction r with
  | zero => intro attempt; simp [makeRequestGo]
  | succ r ih =>
    intro attempt
    obtain ⟨d, hd⟩ := hall attempt
    simp [makeRequestGo, hd, ih (attempt + 1)]

end BaseAdapter

/-- C2 fails on the code: with `max_retries = 0` and a server that
answers 429 once and would then succeed, the engine sleeps the
server-specified cooldown but performs NO retry at all — the `continue`
advances the `for attempt in range(max_retries + 1)` loop, so the 429
consumed the only attempt and the function falls through, implicitly
returning `None` instead of retrying the request. -/
theorem C2_counterexample :
    BaseAdapter.make_request
        (fun i => if i = 0 then BaseAdapter.HttpOutcome.status429 60
          else BaseAdapter.HttpOutcome.success) 0 =
      (BaseAdapter.MRResult.noneReturned,
        [BaseAdapter.MREv.get 0, BaseAdapter.MREv.sleepRetryAfter 60]) ∧
      BaseAdapter.MREv.get 1 ∉
        (BaseAdapter.make_request
          (fun i => if i = 0 then BaseAdapter.HttpOutcome.status429 60
            else BaseAdapter.HttpOutcome.success) 0).2 := by
  refine ⟨?_, ?_⟩ <;> decide

/-- C2 amended: a 429 causes a wait for the server-specified cooldown
and the request is then reattempted only while an attempt remains — the
429 iteration is counted against the shared budget of
`max_retries + 1` attempts just like any other failure (the engine makes
at most `max_retries + 1` HTTP calls in total), and when 429 responses
exhaust the budget the engine stops and implicitly returns no response
rather than raising or retrying further. -/
theorem C2_amended (resp : Nat → BaseAdapter.HttpOutcome) (m : Nat) :
    ((BaseAdapter.make_request resp m).2.countP BaseAdapter.isGet ≤ m + 1) ∧
      (∀ i d, BaseAdapter.MREv.get i ∈ (BaseAdapter.make_request resp m).2 →
        resp i = BaseAdapter.HttpOutcome.status429 d →
        BaseAdapter.MREv.sleepRetryAfter d ∈
            (BaseAdapter.make_request resp m).2 ∧
          (i < m → BaseAdapter.MREv.get (i + 1) ∈
            (BaseAdapter.make_request resp m).2)) ∧
      ((∀ i, ∃ d, resp i = BaseAdapter.HttpOutcome.status429 d) →
        (BaseAdapter.make_request resp m).1 =
          BaseAdapter.MRResult.noneReturned) := by
  refine ⟨BaseAdapter.go_count resp m (m + 1) 0, ?_, ?_⟩
  · intro i d hmem hresp
    exact BaseAdapter.go_429_retry resp m (m + 1) 0 (by omega) i d hmem hresp
  · intro hall
    exact BaseAdapter.go_all429 resp m hall (m + 1) 0

/-- A server that always answers 429 with a 60 second cooldown. -/
def always429 : Nat → BaseAdapter.HttpOutcome :=
  fun _ => BaseAdapter.HttpOutcome.status429 60

/-- Witness for C2's amended claim at a concrete input: against a server
that always answers 429 and `max_retries = 1`, the cooldown is slept and
the request retried while the budget lasts, at most 2 calls are made,
and the engine ends by returning no response. -/
theorem C2_witness :
    ((BaseAdapter.make_request always429 1).2.countP BaseAdapter.isGet ≤ 2) ∧
      BaseAdapter.MREv.sleepRetryAfter 60 ∈
        (BaseAdapter.make_request always429 1).2 ∧
      BaseAdapter.MREv.get 1 ∈ (BaseAdapter.make_request always429 1).2 ∧
      (BaseAdapter.make_request always429 1).1 =
        BaseAdapter.MRResult.noneReturned :=
  have h := C2_amended always429 1
  have h429 := h.2.1 0 60 (by decide) rfl
  ⟨h.1, h429.1, h429.2 (by decide), h.2.2 (fun i => ⟨60, rfl⟩)⟩

namespace DB

/-- One row of the `decks` table, restricted to the columns
`DatabaseManager.upsert_deck` reads or writes (timestamps modelled as
abstract `Nat` instants supplied by the caller as `now`). -/
structure DeckRow where
  id : Nat
  source_id : Nat
  source_deck_id : String
  format : String
  title : Option String
  author : Option String
  url : Option String
  extra : String
  updated_at : Option Nat
  last_seen_at : Option Nat
  fetched_at : Option Nat
deriving DecidableEq

/-- One row of `deck_cards`. -/
structure CardRow where
  deck_id : Nat
  name : String
  qty : Nat
  oracle_id : Option String
  zone : String
deriving DecidableEq

/-- One row of `deck_commanders`. -/
structure CmdRow where
  deck_id : Nat
  oracle_id : Option String
  name : String
deriving DecidableEq

/-- The fields of a normalized deck dict that `upsert_deck` reads
(`deck_data.get(...)`; absent keys give `none`, and `extra` stands for
the `json.dumps` of the extra map). -/
structure DeckData where
  format : Option String := none
  title : Option String := none
  author : Option String := none
  url : Option String := none
  extra : String := "{}"
deriving DecidableEq

/-- One card dict as read by `insert_deck_cards`
(`card['name']`, `card.get('qty', 1)`, `card.get('oracle_id')`,
`card.get('zone', 'main')`). -/
structure CardData where
  name : String
  qty : Option Nat := none
  oracle_id : Option String := none
  zone : Option String := none
deriving DecidableEq

/-- One commander dict as read by `insert_deck_commanders`
(`cmd.get('oracle_id')`, `cmd['name']`). -/
structure CmdData where
  name : String
  oracle_id : Option String := none
deriving DecidableEq

/-- The SQLite store as observed through `DatabaseManager`: the
`sources`, `decks`, `deck_cards` and `deck_commanders` tables plus the
autoincrement counters supplying `lastrowid`. -/
structure Database where
  sources : List (Nat × String)
  nextSourceId : Nat
  decks : List DeckRow
  nextDeckId : Nat
  deck_cards : List CardRow
  deck_commanders : List CmdRow
deriving DecidableEq

/-- The `WHERE source_id = ? AND source_deck_id = ?` condition of
`upsert_deck`. -/
def deckKey (sid : Nat) (sdid : String) (r : DeckRow) : Bool :=
  r.source_id == sid && r.source_deck_id == sdid

/-- Source: `DatabaseManager.get_source_id` — select the source row by
name, inserting it first when absent. -/
def get_source_id (db : Database) (source_name : String) : Nat × Database :=
  match db.sources.find? (fun s => s.2 == source_name) with
  | some s => (s.1, db)
  | none =>
    (db.nextSourceId,
     { db with
       sources := db.sources ++ [(db.nextSourceId, source_name)],
       nextSourceId := db.nextSourceId + 1 })

/-- The `UPDATE decks SET title = ?, author = ?, url = ?, extra = ?,
updated_at = ?, last_seen_at = ?, fetched_at = ? WHERE id = ?` statement
of `upsert_deck`, applied to one stored row: mutable columns refreshed,
identity and key columns untouched. -/
def updateRow (d : DeckData) (now eid : Nat) (r : DeckRow) : DeckRow :=
  if r.id = eid then
    { r with
      title := d.title, author := d.author, url := d.url,
      extra := d.extra, updated_at := some now,
      last_seen_at := some now, fetched_at := some now }
  else r

/-- The `INSERT INTO decks …` row of `upsert_deck` for a new deck. -/
def newDeckRow (d : DeckData) (now sid : Nat) (sdid : String)
    (rowid : Nat) : DeckRow :=
  { id := rowid, source_id := sid, source_deck_id := sdid,
    format := d.format.getD "Commander",
    title := d.title, author := d.author, url := d.url,
    extra := d.extra, updated_at := none, last_seen_at := none,
    fetched_at := some now }

/-- Source: `DatabaseManager.upsert_deck` — select the deck row by
`(source_id, source_deck_id)`; when present, update its mutable columns
in place (id, key columns and `format` untouched); when absent, insert a
new row with the next rowid. -/
def upsert_deck (db : Database) (source_name source_deck_id : String)
    (d : DeckData) (now : Nat) : Nat × Database :=
  let s := get_source_id db source_name
  match s.2.decks.find? (deckKey s.1 source_deck_id) with
  | some existing =>
    (existing.id,
     { s.2 with decks := s.2.decks.map (updateRow d now existing.id) })
  | none =>
    (s.2.nextDeckId,
     { s.2 with
       decks := s.2.decks ++
         [newDeckRow d now s.1 source_deck_id s.2.nextDeckId],
       nextDeckId := s.2.nextDeckId + 1 })

/-- The row `insert_deck_cards` builds for one card dict. -/
def cardToRow (deck_id : Nat) (c : CardData) : CardRow :=
  { deck_id := deck_id, name := c.name, qty := c.qty.getD 1,
    oracle_id := c.oracle_id, zone := c.zone.getD "main" }

/-- Source: `DatabaseManager.insert_deck_cards` — when `clear_existing`
(the default), delete this deck's card rows, then insert the given
cards. -/
def insert_deck_cards (db : Database) (deck_id : Nat)
    (cards : List CardData) (clear_existing : Bool) : Database :=
  let base :=
    if clear_existing then
      db.deck_cards.filter (fun r => r.deck_id != deck_id)
    else db.deck_cards
  { db with deck_cards := base ++ cards.map (cardToRow deck_id) }

/-- The row `insert_deck_commanders` builds for one commander dict. -/
def cmdToRow (deck_id : Nat) (c : CmdData) : CmdRow :=
  { deck_id := deck_id, oracle_id := c.oracle_id, name := c.name }

/-- Source: `DatabaseManager.insert_deck_commanders` — always delete
this deck's commander rows, then insert the given commanders when the
list is nonempty. -/
def insert_deck_commanders (db : Database) (deck_id : Nat)
    (commanders : List CmdData) : Database :=
  let base := db.deck_commanders.filter (fun r => r.deck_id != deck_id)
  if commanders.isEmpty then { db with deck_commanders := base }
  else
    { db with deck_commanders := base ++ commanders.map (cmdToRow deck_id) }

/-- Source: the per-deck persistence sequence of the orchestrator
(`IngestionJob.run_moxfield_export` lines 193–205, identically
`run_archidekt_incremental` lines 58–70): upsert the deck row, replace
its card rows (`insert_deck_cards` with the default
`clear_existing=True`), and, under `if deck_data['commanders']`, replace
its commander rows. -/
def persist_deck (db : Database) (sname sdid : String) (d : DeckData)
    (cards : List CardData) (commanders : List CmdData) (now : Nat) :
    Nat × Database :=
  let r := upsert_deck db sname sdid d now
  let deck_id := r.1
  let db2 := insert_deck_cards r.2 deck_id cards true
  let db3 :=
    if commanders.isEmpty then db2
    else insert_deck_commanders db2 deck_id commanders
  (deck_id, db3)

end DB

namespace DB

theorem find?_eq_head?_filter {α : Type} (p : α → Bool) :
    ∀ l : List α, l.find? p = (l.filter p).head?
  | [] => rfl
  | a :: t => by
    cases h : p a with
    | true => simp [List.find?_cons, List.filter_cons, h]
    | false =>
      simp only [List.find?_cons, List.filter_cons, h, cond_false,
        Bool.false_eq_true, if_false]
      exact find?_eq_head?_filter p t

theorem filter_ne_eq_nil {α : Type} (f : α → Nat) (i : Nat) (l : List α) :
    ((l.filter (fun r => f r != i)).filter (fun r => f r == i)) = [] := by
  induction l with
  | nil => rfl
  | cons a t ih =>
    by_cases h : f a = i
    · simp [List.filter_cons, h, ih]
    · simp [List.filter_cons, h, ih]

theorem filter_eq_map {α β : Type} (f : β → Nat) (i : Nat) (g : α → β)
    (l : List α) (hg : ∀ a, f (g a) = i) :
    ((l.map g).filter (fun r => f r == i)) = l.map g := by
  rw [List.filter_eq_self]
  intro b hb
  obtain ⟨a, _, rfl⟩ := List.mem_map.mp hb
  simp [hg a]

theorem get_source_id_found (db : Database) (n : String) :
    (get_source_id db n).2.sources.find? (fun s => s.2 == n) =
      some ((get_source_id db n).1, n) ∧
      (get_source_id db n).2.decks = db.decks ∧
      (get_source_id db n).2.deck_cards = db.deck_cards ∧
      (get_source_id db n).2.deck_commanders = db.deck_commanders ∧
      (get_source_id db n).2.nextDeckId = db.nextDeckId := by
  cases hf : db.sources.find? (fun s => s.2 == n) with
  | some s =>
    have heq : get_source_id db n = (s.1, db) := by
      unfold get_source_id
      rw [hf]
    have hp := List.find?_some hf
    simp only [beq_iff_eq] at hp
    have hs : s = (s.1, n) := by
      cases s
      simp only at hp
      rw [hp]
    rw [heq]
    exact ⟨by rw [hf]; exact congrArg some hs, rfl, rfl, rfl, rfl⟩
  | none =>
    have heq : get_source_id db n =
        (db.nextSourceId,
         { db with
           sources := db.sources ++ [(db.nextSourceId, n)],
           nextSourceId := db.nextSourceId + 1 }) := by
      unfold get_source_id
      rw [hf]
    rw [heq]
    refine ⟨?_, rfl, rfl, rfl, rfl⟩
    show (db.sources ++ [(db.nextSourceId, n)]).find? (fun s => s.2 == n) = _
    rw [List.find?_append, hf]
    simp

theorem get_source_id_of_sources (db1 : Database) (sname : String)
    (sid : Nat)
    (hsrc : db1.sources.find? (fun s => s.2 == sname) = some (sid, sname)) :
    get_source_id db1 sname = (sid, db1) := by
  unfold get_source_id
  rw [hsrc]

/-- The deck key columns are untouched by the in-place update. -/
theorem deckKey_updateRow (sid : Nat) (sdid : String) (d : DeckData)
    (now eid : Nat) (r : DeckRow) :
    deckKey sid sdid (updateRow d now eid r) = deckKey sid sdid r := by
  unfold updateRow
  by_cases h : r.id = eid <;> simp [h, deckKey]

theorem deckKey_comp_updateRow (sid : Nat) (sdid : String) (d : DeckData)
    (now eid : Nat) :
    (deckKey sid sdid ∘ updateRow d now eid) = deckKey sid sdid :=
  funext fun r => deckKey_updateRow sid sdid d now eid r

/-- The row identity is untouched by the in-place update. -/
theorem updateRow_id (d : DeckData) (now eid : Nat) (r : DeckRow) :
    (updateRow d now eid r).id = r.id := by
  unfold updateRow
  by_cases h : r.id = eid <;> simp [h]

theorem upsert_spec (db : Database) (sname sdid : String) (d : DeckData)
    (now : Nat)
    (hwf : (db.decks.filter
      (deckKey (get_source_id db sname).1 sdid)).length ≤ 1) :
    ∃ row : DeckRow,
      (upsert_deck db sname sdid d now).2.decks.filter
          (deckKey (get_source_id db sname).1 sdid) = [row] ∧
        (upsert_deck db sname sdid d now).1 = row.id ∧
        (upsert_deck db sname sdid d now).2.deck_cards = db.deck_cards ∧
        (upsert_deck db sname sdid d now).2.deck_commanders =
          db.deck_commanders ∧
        (upsert_deck db sname sdid d now).2.sources =
          (get_source_id db sname).2.sources := by
  obtain ⟨hfound, hdecks, hcards, hcmds, hnext⟩ := get_source_id_found db sname
  cases hf : (get_source_id db sname).2.decks.find?
      (deckKey (get_source_id db sname).1 sdid) with
  | some existing =>
    have heq : upsert_deck db sname sdid d now =
        (existing.id,
         { (get_source_id db sname).2 with
           decks := (get_source_id db sname).2.decks.map
             (updateRow d now existing.id) }) := by
      simp only [upsert_deck]
      rw [hf]
    have hflt : (get_source_id db sname).2.decks.filter
        (deckKey (get_source_id db sname).1 sdid) = [existing] := by
      rw [find?_eq_head?_filter] at hf
      rw [hdecks] at hf ⊢
      cases hl : db.decks.filter (deckKey (get_source_id db sname).1 sdid) with
      | nil => rw [hl] at hf; cases hf
      | cons x t =>
        rw [hl] at hf
        rw [hl] at hwf
        simp only [List.head?] at hf
        cases hf
        have ht : t.length = 0 := by simpa using hwf
        rw [List.length_eq_zero] at ht
        rw [ht]
    refine ⟨updateRow d now existing.id existing, ?_, ?_, ?_, ?_, ?_⟩
    · rw [heq]
      show ((get_source_id db sname).2.decks.map
          (updateRow d now existing.id)).filter
          (deckKey (get_source_id db sname).1 sdid) = _
      rw [List.filter_map, deckKey_comp_updateRow, hflt]
      rfl
    · rw [heq]
      exact (updateRow_id d now existing.id existing).symm
    · rw [heq]; exact hcards
    · rw [heq]; exact hcmds
    · rw [heq]
  | none =>
    have heq : upsert_deck db sname sdid d now =
        ((get_source_id db sname).2.nextDeckId,
         { (get_source_id db sname).2 with
           decks := (get_source_id db sname).2.decks ++
             [newDeckRow d now (get_source_id db sname).1 sdid
               (get_source_id db sname).2.nextDeckId],
           nextDeckId := (get_source_id db sname).2.nextDeckId + 1 }) := by
      simp only [upsert_deck]
      rw [hf]
    have hnil : (get_source_id db sname).2.decks.filter
        (deckKey (get_source_id db sname).1 sdid) = [] := by
      rw [find?_eq_head?_filter] at hf
      exact List.head?_eq_none_iff.mp hf
    have hkeynew : deckKey (get_source_id db sname).1 sdid
        (newDeckRow d now (get_source_id db sname).1 sdid
          (get_source_id db sname).2.nextDeckId) = true := by
      simp [deckKey, newDeckRow]
    refine ⟨newDeckRow d now (get_source_id db sname).1 sdid
      (get_source_id db sname).2.nextDeckId, ?_, ?_, ?_, ?_, ?_⟩
    · rw [heq]
      show ((get_source_id db sname).2.decks ++
          [newDeckRow d now (get_source_id db sname).1 sdid
            (get_source_id db sname).2.nextDeckId]).filter
          (deckKey (get_source_id db sname).1 sdid) = _
      rw [List.filter_append, hnil]
      simp [hkeynew]
    · rw [heq]
      rfl
    · rw [heq]; exact hcards
    · rw [heq]; exact hcmds
    · rw [heq]

theorem upsert_update_round (db1 : Database) (sname sdid : String)
    (d : DeckData) (now sid : Nat) (row : DeckRow)
    (hsid : get_source_id db1 sname = (sid, db1))
    (hflt : db1.decks.filter (deckKey sid sdid) = [row]) :
    (upsert_deck db1 sname sdid d now).1 = row.id ∧
      (upsert_deck db1 sname sdid d now).2.decks.filter
        (deckKey sid sdid) = [updateRow d now row.id row] ∧
      (upsert_deck db1 sname sdid d now).2.deck_cards = db1.deck_cards ∧
      (upsert_deck db1 sname sdid d now).2.deck_commanders =
        db1.deck_commanders := by
  have hf : db1.decks.find? (deckKey sid sdid) = some row := by
    rw [find?_eq_head?_filter, hflt]
    rfl
  have heq : upsert_deck db1 sname sdid d now =
      (row.id, { db1 with decks := db1.decks.map (updateRow d now row.id) }) := by
    simp only [upsert_deck, hsid]
    rw [hf]
  rw [heq]
  refine ⟨rfl, ?_, rfl, rfl⟩
  show (db1.decks.map (updateRow d now row.id)).filter (deckKey sid sdid) = _
  rw [List.filter_map, deckKey_comp_updateRow, hflt]
  rfl

theorem insert_deck_commanders_decks (db : Database) (i : Nat)
    (cs : List CmdData) : (insert_deck_commanders db i cs).decks = db.decks := by
  unfold insert_deck_commanders
  by_cases h : cs.isEmpty <;> simp [h]

theorem insert_deck_commanders_sources (db : Database) (i : Nat)
    (cs : List CmdData) :
    (insert_deck_commanders db i cs).sources = db.sources := by
  unfold insert_deck_commanders
  by_cases h : cs.isEmpty <;> simp [h]

theorem insert_deck_commanders_cards (db : Database) (i : Nat)
    (cs : List CmdData) :
    (insert_deck_commanders db i cs).deck_cards = db.deck_cards := by
  unfold insert_deck_commanders
  by_cases h : cs.isEmpty <;> simp [h]

theorem insert_deck_commanders_rows (db : Database) (i : Nat)
    (cs : List CmdData) (h : ¬ cs.isEmpty) :
    (insert_deck_commanders db i cs).deck_commanders =
      db.deck_commanders.filter (fun r => r.deck_id != i) ++
        cs.map (cmdToRow i) := by
  unfold insert_deck_commanders
  rw [if_neg h]

end DB

namespace DB

theorem insert_deck_cards_decks (db : Database) (i : Nat)
    (c : List CardData) (b : Bool) :
    (insert_deck_cards db i c b).decks = db.decks := rfl

theorem insert_deck_cards_sources (db : Database) (i : Nat)
    (c : List CardData) (b : Bool) :
    (insert_deck_cards db i c b).sources = db.sources := rfl

theorem insert_deck_cards_cmds (db : Database) (i : Nat)
    (c : List CardData) (b : Bool) :
    (insert_deck_cards db i c b).deck_commanders = db.deck_commanders := rfl

theorem insert_deck_cards_rows (db : Database) (i : Nat)
    (c : List CardData) :
    (insert_deck_cards db i c true).deck_cards =
      db.deck_cards.filter (fun r => r.deck_id != i) ++
        c.map (cardToRow i) := rfl

end DB

/-- C8: persisting a deck under the same `(source_name, source_deck_id)`
key twice — with different metadata, card lists and commander lists —
leaves exactly one deck row for that key, whose identity (rowid) is the
one assigned at the first persistence, and whose card and commander rows
are exactly the most recently persisted lists (delete-then-insert
replacement, never merged).  The hypotheses say the store starts with at
most one row for the key (the schema's UNIQUE constraint) and that the
second deck has at least one commander (the orchestrator replaces
commander rows under `if deck_data['commanders']`). -/
theorem C8_upsert_idempotent (db : DB.Database) (sname sdid : String)
    (d1 d2 : DB.DeckData) (cards1 cards2 : List DB.CardData)
    (cmds1 cmds2 : List DB.CmdData) (t1 t2 : Nat)
    (hwf : (db.decks.filter
      (DB.deckKey (DB.get_source_id db sname).1 sdid)).length ≤ 1)
    (hc2 : cmds2 ≠ []) :
    (DB.persist_deck (DB.persist_deck db sname sdid d1 cards1 cmds1 t1).2
        sname sdid d2 cards2 cmds2 t2).1 =
      (DB.persist_deck db sname sdid d1 cards1 cmds1 t1).1 ∧
      ((DB.persist_deck (DB.persist_deck db sname sdid d1 cards1 cmds1 t1).2
          sname sdid d2 cards2 cmds2 t2).2.decks.filter
        (DB.deckKey (DB.get_source_id db sname).1 sdid)).length = 1 ∧
      (DB.persist_deck (DB.persist_deck db sname sdid d1 cards1 cmds1 t1).2
          sname sdid d2 cards2 cmds2 t2).2.deck_cards.filter
        (fun r => r.deck_id ==
          (DB.persist_deck db sname sdid d1 cards1 cmds1 t1).1) =
        cards2.map (DB.cardToRow
          (DB.persist_deck db sname sdid d1 cards1 cmds1 t1).1) ∧
      (DB.persist_deck (DB.persist_deck db sname sdid d1 cards1 cmds1 t1).2
          sname sdid d2 cards2 cmds2 t2).2.deck_commanders.filter
        (fun r => r.deck_id ==
          (DB.persist_deck db sname sdid d1 cards1 cmds1 t1).1) =
        cmds2.map (DB.cmdToRow
          (DB.persist_deck db sname sdid d1 cards1 cmds1 t1).1) := by
  have hce2 : cmds2.isEmpty = false := by
    cases cmds2 with
    | nil => exact absurd rfl hc2
    | cons a t => rfl
  obtain ⟨row1, hflt1, hid1, hcards1u, hcmds1u, hsrc1⟩ :=
    DB.upsert_spec db sname sdid d1 t1 hwf
  have hfst1 : (DB.persist_deck db sname sdid d1 cards1 cmds1 t1).1 =
      (DB.upsert_deck db sname sdid d1 t1).1 := rfl
  have hd1 : (DB.persist_deck db sname sdid d1 cards1 cmds1 t1).2.decks =
      (DB.upsert_deck db sname sdid d1 t1).2.decks := by
    simp only [DB.persist_deck]
    by_cases h : cmds1.isEmpty <;>
      simp [h, DB.insert_deck_cards_decks, DB.insert_deck_commanders_decks]
  have hsrcP1 : (DB.persist_deck db sname sdid d1 cards1 cmds1 t1).2.sources =
      (DB.get_source_id db sname).2.sources := by
    simp only [DB.persist_deck]
    by_cases h : cmds1.isEmpty <;>
      simp [h, DB.insert_deck_cards_sources,
        DB.insert_deck_commanders_sources, hsrc1]
  have hgs2 : DB.get_source_id
      (DB.persist_deck db sname sdid d1 cards1 cmds1 t1).2 sname =
      ((DB.get_source_id db sname).1,
        (DB.persist_deck db sname sdid d1 cards1 cmds1 t1).2) :=
    DB.get_source_id_of_sources _ sname _
      (by rw [hsrcP1]; exact (DB.get_source_id_found db sname).1)
  have hfltP1 : (DB.persist_deck db sname sdid d1 cards1 cmds1 t1).2.decks.filter
      (DB.deckKey (DB.get_source_id db sname).1 sdid) = [row1] := by
    rw [hd1]
    exact hflt1
  obtain ⟨hid2, hflt2, hcards2u, hcmds2u⟩ :=
    DB.upsert_update_round (DB.persist_deck db sname sdid d1 cards1 cmds1 t1).2
      sname sdid d2 t2 (DB.get_source_id db sname).1 row1 hgs2 hfltP1
  have hP1id : (DB.persist_deck db sname sdid d1 cards1 cmds1 t1).1 = row1.id := by
    rw [hfst1, hid1]
  have hup2fst : (DB.upsert_deck
      (DB.persist_deck db sname sdid d1 cards1 cmds1 t1).2 sname sdid d2 t2).1 =
      (DB.persist_deck db sname sdid d1 cards1 cmds1 t1).1 := by
    rw [hid2, hP1id]
  have hfst2 : (DB.persist_deck (DB.persist_deck db sname sdid d1 cards1 cmds1 t1).2
      sname sdid d2 cards2 cmds2 t2).1 =
      (DB.upsert_deck (DB.persist_deck db sname sdid d1 cards1 cmds1 t1).2
        sname sdid d2 t2).1 := rfl
  have hd2 : (DB.persist_deck (DB.persist_deck db sname sdid d1 cards1 cmds1 t1).2
      sname sdid d2 cards2 cmds2 t2).2.decks =
      (DB.upsert_deck (DB.persist_deck db sname sdid d1 cards1 cmds1 t1).2
        sname sdid d2 t2).2.decks := by
    simp only [DB.persist_deck]
    simp [hce2, DB.insert_deck_cards_decks, DB.insert_deck_commanders_decks]
  have hcardrows : (DB.persist_deck
      (DB.persist_deck db sname sdid d1 cards1 cmds1 t1).2
      sname sdid d2 cards2 cmds2 t2).2.deck_cards =
      (DB.upsert_deck (DB.persist_deck db sname sdid d1 cards1 cmds1 t1).2
          sname sdid d2 t2).2.deck_cards.filter
        (fun r => r.deck_id !=
          (DB.upsert_deck (DB.persist_deck db sname sdid d1 cards1 cmds1 t1).2
            sname sdid d2 t2).1) ++
        cards2.map (DB.cardToRow
          (DB.upsert_deck (DB.persist_deck db sname sdid d1 cards1 cmds1 t1).2
            sname sdid d2 t2).1) := by
    simp only [DB.persist_deck]
    simp [hce2, DB.insert_deck_commanders_cards, DB.insert_deck_cards_rows]
  have hne2 : ¬ (cmds2.isEmpty = true) := by simp [hce2]
  have hcmdrows : (DB.persist_deck
      (DB.persist_deck db sname sdid d1 cards1 cmds1 t1).2
      sname sdid d2 cards2 cmds2 t2).2.deck_commanders =
      (DB.upsert_deck (DB.persist_deck db sname sdid d1 cards1 cmds1 t1).2
          sname sdid d2 t2).2.deck_commanders.filter
        (fun r => r.deck_id !=
          (DB.upsert_deck (DB.persist_deck db sname sdid d1 cards1 cmds1 t1).2
            sname sdid d2 t2).1) ++
        cmds2.map (DB.cmdToRow
          (DB.upsert_deck (DB.persist_deck db sname sdid d1 cards1 cmds1 t1).2
            sname sdid d2 t2).1) := by
    simp only [DB.persist_deck]
    simp only [hce2, Bool.false_eq_true, if_false]
    rw [DB.insert_deck_commanders_rows _ _ _ hne2, DB.insert_deck_cards_cmds]
  refine ⟨?_, ?_, ?_, ?_⟩
  · rw [hfst2, hup2fst]
  · rw [hd2, hflt2]
    rfl
  · rw [hcardrows, hup2fst, List.filter_append,
      DB.filter_ne_eq_nil DB.CardRow.deck_id,
      DB.filter_eq_map DB.CardRow.deck_id
        (DB.persist_deck db sname sdid d1 cards1 cmds1 t1).1
        (DB.cardToRow (DB.persist_deck db sname sdid d1 cards1 cmds1 t1).1)
        cards2 (fun a => rfl)]
    simp
  · rw [hcmdrows, hup2fst, List.filter_append,
      DB.filter_ne_eq_nil DB.CmdRow.deck_id,
      DB.filter_eq_map DB.CmdRow.deck_id
        (DB.persist_deck db sname sdid d1 cards1 cmds1 t1).1
        (DB.cmdToRow (DB.persist_deck db sname sdid d1 cards1 cmds1 t1).1)
        cmds2 (fun a => rfl)]
    simp

/-- An empty store (fresh schema, rowids starting at 1). -/
def w8db : DB.Database := ⟨[], 1, [], 1, [], []⟩

/-- First persisted card list. -/
def w8cards1 : List DB.CardData := [{ name := "Sol Ring" }]

/-- Second, different card list. -/
def w8cards2 : List DB.CardData :=
  [{ name := "Forest" }, { name := "Arcane Signet", qty := some 1 }]

/-- First commander list. -/
def w8cmds1 : List DB.CmdData := [{ name := "Atraxa" }]

/-- Second commander list. -/
def w8cmds2 : List DB.CmdData := [{ name := "Breya" }]

/-- Deck metadata used by the C8 witness. -/
def w8d : DB.DeckData := {}

/-- Witness for C8 at a concrete input: persisting deck `42` of source
`moxfield` twice into an empty store, with different card and commander
lists. -/
theorem C8_witness :
    (DB.persist_deck
        (DB.persist_deck w8db "moxfield" "42" w8d w8cards1 w8cmds1 10).2
        "moxfield" "42" w8d w8cards2 w8cmds2 20).1 =
      (DB.persist_deck w8db "moxfield" "42" w8d w8cards1 w8cmds1 10).1 ∧
      ((DB.persist_deck
          (DB.persist_deck w8db "moxfield" "42" w8d w8cards1 w8cmds1 10).2
          "moxfield" "42" w8d w8cards2 w8cmds2 20).2.decks.filter
        (DB.deckKey (DB.get_source_id w8db "moxfield").1 "42")).length = 1 ∧
      (DB.persist_deck
          (DB.persist_deck w8db "moxfield" "42" w8d w8cards1 w8cmds1 10).2
          "moxfield" "42" w8d w8cards2 w8cmds2 20).2.deck_cards.filter
        (fun r => r.deck_id ==
          (DB.persist_deck w8db "moxfield" "42" w8d w8cards1 w8cmds1 10).1) =
        w8cards2.map (DB.cardToRow
          (DB.persist_deck w8db "moxfield" "42" w8d w8cards1 w8cmds1 10).1) ∧
      (DB.persist_deck
          (DB.persist_deck w8db "moxfield" "42" w8d w8cards1 w8cmds1 10).2
          "moxfield" "42" w8d w8cards2 w8cmds2 20).2.deck_commanders.filter
        (fun r => r.deck_id ==
          (DB.persist_deck w8db "moxfield" "42" w8d w8cards1 w8cmds1 10).1) =
        w8cmds2.map (DB.cmdToRow
          (DB.persist_deck w8db "moxfield" "42" w8d w8cards1 w8cmds1 10).1) :=
  C8_upsert_idempotent w8db "moxfield" "42" w8d w8d w8cards1 w8cards2
    w8cmds1 w8cmds2 10 20 (by decide) (by decide)

namespace Ingestion

/-- Outcome of `adapter.fetch_deck(deck_id)` for one deck: a normalized
deck dict (`cards` counts its card entries, `hasCommanders` whether its
commander list is nonempty), `None`, or a raised exception. -/
inductive FetchOutcome where
  | ok (cards : Nat) (hasCommanders : Bool)
  | noneResult
  | raised
deriving DecidableEq

/-- The one JobRun row written by `db.log_ingestion` at the end of a
job (wall-clock duration and the constant `http_429_count = 0` column
omitted). -/
structure JobRecord where
  source_name : String
  operation : String
  status : String
  decks_processed : Nat
  cards_processed : Nat
  errors_count : Nat
deriving DecidableEq

/-- Source: the `for deck_id in processed_ids` loop of
`IngestionJob.run_moxfield_export`, threading the
`(total_decks, total_cards, errors)` counters: a fetched deck is
persisted and counted, a `None` result counts one error, and a raised
exception is caught and counts one error without stopping the loop.
Persistence is the total function modelled in `DB`, so it contributes no
failures here. -/
def exportLoop (fetch : String → FetchOutcome) (acc : Nat × Nat × Nat) :
    List String → Nat × Nat × Nat
  | [] => acc
  | id :: rest =>
    match fetch id with
    | FetchOutcome.ok cards _ =>
      exportLoop fetch (acc.1 + 1, acc.2.1 + cards, acc.2.2) rest
    | FetchOutcome.noneResult =>
      exportLoop fetch (acc.1, acc.2.1, acc.2.2 + 1) rest
    | FetchOutcome.raised =>
      exportLoop fetch (acc.1, acc.2.1, acc.2.2 + 1) rest

/-- Source: `IngestionJob.run_moxfield_export`, returning the JobRun
record written by `log_ingestion` on completion.  `none` models the two
paths that write no export record: the adapter-disabled `skipped` return
and the empty-`deck_ids` fallback into discovery.  The `try` body is
modelled on the path where job-level initialization succeeded; per-deck
failures are the counted ones. -/
def run_moxfield_export (enabled : Bool) (fetch : String → FetchOutcome)
    (deck_ids : List String) (max_decks : Nat) : Option JobRecord :=
  if ¬ enabled then none
  else if deck_ids.isEmpty then none
  else
    let processed_ids := deck_ids.take max_decks
    let r := exportLoop fetch (0, 0, 0) processed_ids
    some { source_name := "moxfield", operation := "export",
           status := if r.2.2 = 0 then "success" else "partial",
           decks_processed := r.1, cards_processed := r.2.1,
           errors_count := r.2.2 }

theorem exportLoop_append (fetch : String → FetchOutcome) :
    ∀ (l1 l2 : List String) (acc : Nat × Nat × Nat),
      exportLoop fetch acc (l1 ++ l2) =
        exportLoop fetch (exportLoop fetch acc l1) l2 := by
  intro l1
  induction l1 with
  | nil => intro l2 acc; rfl
  | cons a t ih =>
    intro l2 acc
    cases h : fetch a <;> simp [exportLoop, h, ih]

theorem exportLoop_all_ok (fetch : String → FetchOutcome) :
    ∀ (l : List String) (acc : Nat × Nat × Nat),
      (∀ id ∈ l, ∃ c b, fetch id = FetchOutcome.ok c b) →
      (exportLoop fetch acc l).1 = acc.1 + l.length ∧
        (exportLoop fetch acc l).2.2 = acc.2.2 := by
  intro l
  induction l with
  | nil => intro acc h; simp [exportLoop]
  | cons a t ih =>
    intro acc h
    obtain ⟨c, b, hc⟩ := h a (List.mem_cons_self a t)
    have hrest := ih (acc.1 + 1, acc.2.1 + c, acc.2.2)
      (fun id hid => h id (List.mem_cons_of_mem a hid))
    simp only [exportLoop, hc]
    refine ⟨?_, hrest.2⟩
    rw [hrest.1]
    simp
    omega

end Ingestion

/-- C1: when a job runs over N deck identifiers of which exactly one
raises during fetch and the other N−1 are fetched (and persisted)
successfully, the JobRun record reports `decks_processed = N - 1`,
`errors_count = 1` and `status = partial`; and in general a job record
carries `status = success` exactly when its error count is zero. -/
theorem C1_partial_failure_isolation (fetch : String → Ingestion.FetchOutcome)
    (ids1 ids2 : List String) (bad : String) (max_decks : Nat)
    (hbad : fetch bad = Ingestion.FetchOutcome.raised)
    (hok : ∀ id ∈ ids1 ++ ids2, ∃ c b, fetch id = Ingestion.FetchOutcome.ok c b)
    (hlen : ids1.length + 1 + ids2.length ≤ max_decks) :
    ((Ingestion.run_moxfield_export true fetch (ids1 ++ bad :: ids2)
        max_decks).map Ingestion.JobRecord.status = some "partial" ∧
      (Ingestion.run_moxfield_export true fetch (ids1 ++ bad :: ids2)
        max_decks).map Ingestion.JobRecord.decks_processed =
        some ((ids1 ++ bad :: ids2).length - 1) ∧
      (Ingestion.run_moxfield_export true fetch (ids1 ++ bad :: ids2)
        max_decks).map Ingestion.JobRecord.errors_count = some 1) ∧
    (∀ (g : String → Ingestion.FetchOutcome) (ids : List String) (m : Nat)
        (rec : Ingestion.JobRecord),
      Ingestion.run_moxfield_export true g ids m = some rec →
      (rec.status = "success" ↔ rec.errors_count = 0)) := by
  constructor
  · have hne : (ids1 ++ bad :: ids2).isEmpty = false := by
      cases ids1 <;> rfl
    have htake : (ids1 ++ bad :: ids2).take max_decks = ids1 ++ bad :: ids2 := by
      apply List.take_of_length_le
      simp
      omega
    have hloop : Ingestion.exportLoop fetch (0, 0, 0) (ids1 ++ bad :: ids2) =
        Ingestion.exportLoop fetch
          (Ingestion.exportLoop fetch (0, 0, 0) ids1) (bad :: ids2) :=
      Ingestion.exportLoop_append fetch ids1 (bad :: ids2) (0, 0, 0)
    have h1 := Ingestion.exportLoop_all_ok fetch ids1 (0, 0, 0)
      (fun id hid => hok id (List.mem_append_left ids2 hid))
    have hstep : Ingestion.exportLoop fetch
        (Ingestion.exportLoop fetch (0, 0, 0) ids1) (bad :: ids2) =
        Ingestion.exportLoop fetch
          ((Ingestion.exportLoop fetch (0, 0, 0) ids1).1,
           (Ingestion.exportLoop fetch (0, 0, 0) ids1).2.1,
           (Ingestion.exportLoop fetch (0, 0, 0) ids1).2.2 + 1) ids2 := by
      simp [Ingestion.exportLoop, hbad]
    have h2 := Ingestion.exportLoop_all_ok fetch ids2
      ((Ingestion.exportLoop fetch (0, 0, 0) ids1).1,
       (Ingestion.exportLoop fetch (0, 0, 0) ids1).2.1,
       (Ingestion.exportLoop fetch (0, 0, 0) ids1).2.2 + 1)
      (fun id hid => hok id (List.mem_append_right ids1 hid))
    have hdecks : (Ingestion.exportLoop fetch (0, 0, 0)
        (ids1 ++ bad :: ids2)).1 = ids1.length + ids2.length := by
      rw [hloop, hstep, h2.1, h1.1]
      simp
    have herr : (Ingestion.exportLoop fetch (0, 0, 0)
        (ids1 ++ bad :: ids2)).2.2 = 1 := by
      rw [hloop, hstep, h2.2, h1.2]
    have hrun : Ingestion.run_moxfield_export true fetch (ids1 ++ bad :: ids2)
        max_decks =
        some { source_name := "moxfield", operation := "export",
               status := "partial",
               decks_processed := ids1.length + ids2.length,
               cards_processed := (Ingestion.exportLoop fetch (0, 0, 0)
                 (ids1 ++ bad :: ids2)).2.1,
               errors_count := 1 } := by
      simp only [Ingestion.run_moxfield_export, hne, htake, hdecks, herr]
      rw [if_neg (by decide : ¬ ¬ True), if_neg (by decide : ¬ false = true),
        if_neg (by decide : ¬ (1 : Nat) = 0)]
    refine ⟨?_, ?_, ?_⟩
    · rw [hrun]
      rfl
    · rw [hrun]
      have hl : ids1.length + ids2.length = (ids1 ++ bad :: ids2).length - 1 := by
        simp only [List.length_append, List.length_cons]
        omega
      exact congrArg some hl
    · rw [hrun]
      rfl
  · intro g ids m rec hrec
    simp only [Ingestion.run_moxfield_export] at hrec
    by_cases hids : ids.isEmpty
    · simp [hids] at hrec
    · simp [hids] at hrec
      rw [← hrec]
      by_cases hz : (Ingestion.exportLoop g (0, 0, 0) (ids.take m)).2.2 = 0
      · simp [hz]
      · simp [hz]

/-- A fetcher for which only deck `b` raises. -/
def w1fetch : String → Ingestion.FetchOutcome := fun id =>
  if id = "b" then Ingestion.FetchOutcome.raised
  else Ingestion.FetchOutcome.ok 100 true

/-- Witness for C1 at a concrete input: of the three deck ids
`a`, `b`, `c`, only `b` raises; the job record reports 2 decks
processed, 1 error, status `partial`. -/
theorem C1_witness :
    (Ingestion.run_moxfield_export true w1fetch ["a", "b", "c"] 50).map
        Ingestion.JobRecord.status = some "partial" ∧
      (Ingestion.run_moxfield_export true w1fetch ["a", "b", "c"] 50).map
        Ingestion.JobRecord.decks_processed =
        some (["a", "b", "c"].length - 1) ∧
      (Ingestion.run_moxfield_export true w1fetch ["a", "b", "c"] 50).map
        Ingestion.JobRecord.errors_count = some 1 :=
  (C1_partial_failure_isolation w1fetch ["a"] ["c"] "b" 50 (by decide)
    (fun id hid => by
      simp only [List.mem_append, List.mem_singleton] at hid
      rcases hid with rfl | rfl
      · exact ⟨100, true, by decide⟩
      · exact ⟨100, true, by decide⟩)
    (by decide)).1

namespace Normalizer

/-- Source: the `for card_data in pending_cards` loop of
`CardNormalizer.normalize_all_pending`: skip any card whose deck was
already processed this run; otherwise resolve the name through the
Scryfall normalizer (threading its memoizing cache; `c0` is the cache
`build_name_resolver` produced, which a mid-run rebuild would restore),
count one normalization or one failure, and mark the deck processed.
`processed` models the `processed_decks` set through membership. -/
def normalizePendingLoop (c0 : Scryfall.Cache) (cache : Scryfall.Cache)
    (processed : List Nat) (normalized failed : Nat) :
    List (Nat × String) → Nat × Nat × List Nat × Scryfall.Cache
  | [] => (normalized, failed, processed, cache)
  | (deck_id, name) :: rest =>
    if deck_id ∈ processed then
      normalizePendingLoop c0 cache processed normalized failed rest
    else
      let r := Scryfall.resolve_card_name (some c0) cache name
      match r.1 with
      | some _ =>
        normalizePendingLoop c0 r.2 (processed ++ [deck_id])
          (normalized + 1) failed rest
      | none =>
        normalizePendingLoop c0 r.2 (processed ++ [deck_id])
          normalized (failed + 1) rest

/-- Source: `CardNormalizer.normalize_all_pending` after the refresh
check: `build` is the outcome of `build_name_resolver` (`none` yields
the error dict and no loop), `pending` the
`get_decks_needing_normalization` batch; returns the success dict's
`(normalized, failed, processed_decks)`. -/
def normalize_all_pending (build : Option Scryfall.Cache)
    (pending : List (Nat × String)) : Option (Nat × Nat × List Nat) :=
  match build with
  | none => none
  | some c0 =>
    let r := normalizePendingLoop c0 c0 [] 0 0 pending
    some (r.1, r.2.1, r.2.2.1)

theorem loop_count (c0 : Scryfall.Cache) :
    ∀ (pending : List (Nat × String)) (cache : Scryfall.Cache)
      (processed : List Nat) (n f : Nat),
      (normalizePendingLoop c0 cache processed n f pending).1 +
        (normalizePendingLoop c0 cache processed n f pending).2.1 =
        n + f + ((pending.map Prod.fst).toFinset \ processed.toFinset).card := by
  intro pending
  induction pending with
  | nil => intro cache processed n f; simp [normalizePendingLoop]
  | cons hd rest ih =>
    intro cache processed n f
    obtain ⟨d, nm⟩ := hd
    by_cases hmem : d ∈ processed
    · simp only [normalizePendingLoop, if_pos hmem]
      rw [ih]
      have : insert d (rest.map Prod.fst).toFinset \ processed.toFinset =
          (rest.map Prod.fst).toFinset \ processed.toFinset :=
        Finset.insert_sdiff_of_mem _ (List.mem_toFinset.mpr hmem)
      simp [this]
    · have hnot : d ∉ processed.toFinset := fun hc =>
        hmem (List.mem_toFinset.mp hc)
      have hcard : ((rest.map Prod.fst).toFinset \
            (processed ++ [d]).toFinset).card + 1 =
          (insert d (rest.map Prod.fst).toFinset \ processed.toFinset).card := by
        have h1 : (processed ++ [d]).toFinset = insert d processed.toFinset := by
          ext x
          simp [or_comm]
        rw [h1, Finset.sdiff_insert,
          Finset.insert_sdiff_of_not_mem _ hnot]
        by_cases hd2 : d ∈ (rest.map Prod.fst).toFinset \ processed.toFinset
        · rw [Finset.card_erase_of_mem hd2,
            Finset.insert_eq_self.mpr hd2]
          have := Finset.card_pos.mpr ⟨d, hd2⟩
          omega
        · rw [Finset.erase_eq_of_not_mem hd2,
            Finset.card_insert_of_not_mem hd2]
      cases hr : (Scryfall.resolve_card_name (some c0) cache nm).1 with
      | some oid =>
        simp only [normalizePendingLoop, if_neg hmem, hr]
        rw [ih]
        simp only [List.map_cons, List.toFinset_cons]
        omega
      | none =>
        simp only [normalizePendingLoop, if_neg hmem, hr]
        rw [ih]
        simp only [List.map_cons, List.toFinset_cons]
        omega

theorem loop_processed (c0 : Scryfall.Cache) :
    ∀ (pending : List (Nat × String)) (cache : Scryfall.Cache)
      (processed : List Nat) (n f : Nat),
      (normalizePendingLoop c0 cache processed n f pending).2.2.1.toFinset =
        processed.toFinset ∪ (pending.map Prod.fst).toFinset := by
  intro pending
  induction pending with
  | nil => intro cache processed n f; simp [normalizePendingLoop]
  | cons hd rest ih =>
    intro cache processed n f
    obtain ⟨d, nm⟩ := hd
    by_cases hmem : d ∈ processed
    · simp only [normalizePendingLoop, if_pos hmem]
      rw [ih]
      ext x
      simp only [List.map_cons, List.toFinset_cons, Finset.mem_union,
        Finset.mem_insert, List.mem_toFinset]
      constructor
      · rintro (h | h)
        · exact Or.inl h
        · exact Or.inr (Or.inr h)
      · rintro (h | rfl | h)
        · exact Or.inl h
        · exact Or.inl hmem
        · exact Or.inr h
    · cases hr : (Scryfall.resolve_card_name (some c0) cache nm).1 with
      | some oid =>
        simp only [normalizePendingLoop, if_neg hmem, hr]
        rw [ih]
        ext x
        simp [or_comm, or_assoc, or_left_comm]
      | none =>
        simp only [normalizePendingLoop, if_neg hmem, hr]
        rw [ih]
        ext x
        simp [or_comm, or_assoc, or_left_comm]

end Normalizer

/-- C10: in every run of the full normalization sweep, at most one card
per distinct deck is resolved: `normalized + failed` equals (hence never
exceeds) the number of distinct deck ids in the pending batch, and the
set of processed decks is exactly the set of deck ids occurring in the
batch — later pending cards of an already-processed deck are skipped. -/
theorem C10_one_card_per_deck (c0 : Scryfall.Cache)
    (pending : List (Nat × String)) :
    (Normalizer.normalize_all_pending (some c0) pending).map
        (fun r => r.1 + r.2.1) =
      some ((pending.map Prod.fst).dedup.length) ∧
      (Normalizer.normalize_all_pending (some c0) pending).map
        (fun r => r.2.2.toFinset) =
        some ((pending.map Prod.fst).toFinset) := by
  constructor
  · have h := Normalizer.loop_count c0 pending c0 [] 0 0
    simp only [Normalizer.normalize_all_pending, Option.map]
    rw [h]
    simp [List.card_toFinset]
  · have h := Normalizer.loop_processed c0 pending c0 [] 0 0
    simp only [Normalizer.normalize_all_pending, Option.map]
    rw [h]
    simp
